import Mathlib

/-!
Shallow embedding of the bitswap network behaviour
(`iroh-bitswap/src/behaviour.rs`): per-peer ledgers, the engine state,
its public operations and its connection-lifecycle callbacks.

The wire-message module (`Wantlist`, `BitswapMessage`, `BlockPresence`)
is not part of the sources at hand; those definitions are modelled from
the specification (sections 4.1 and 4.2) and are marked as such.
Machine details that cannot influence the verified statements (metrics
counters, tracing, the `Context` waker plumbing) are dropped; fallible
or optional results are `Option`.
-/

/-- Opaque content identifier (`Cid`); only equality is used. -/
abbrev Cid := Nat

/-- Opaque peer identifier (`PeerId`); only equality is used. -/
abbrev PeerId := Nat

/-- `Priority`: signed integer, passed through unchanged. -/
abbrev Priority := Int

/-- Block payload bytes (`Bytes`); treated as opaque data. -/
abbrev Bytes := List Nat

/-- `ProtocolId`: the three wire versions plus the legacy alias. -/
inductive ProtocolId where
  | legacy
  | bitswap100
  | bitswap110
  | bitswap120
deriving DecidableEq, Repr

/-- `MAX_PROVIDERS` from `behaviour.rs` line 31. -/
def MAX_PROVIDERS : Nat := 10000

/-- `MESSAGE_DELAY` from `behaviour.rs` line 32, in milliseconds. -/
def MESSAGE_DELAY : Nat := 250

/-- Modelled from the spec: a `BlockPresence` is a CID tagged `Have` or
`DontHave` (the `message` module is not among the given sources). -/
inductive PresenceKind where
  | have
  | dontHave
deriving DecidableEq, Repr

/-- Modelled from the spec: `BlockPresence` pairs a CID with a kind. -/
structure BlockPresence where
  cid : Cid
  kind : PresenceKind
deriving DecidableEq, Repr

/-- `BlockPresence::is_have`. -/
def BlockPresence.is_have (bp : BlockPresence) : Bool :=
  decide (bp.kind = PresenceKind.have)

/-- `BlockPresence::have(cid)`. -/
def BlockPresence.mkHave (c : Cid) : BlockPresence :=
  { cid := c, kind := PresenceKind.have }

/-- A `Block`: a CID together with its payload bytes. -/
structure Block where
  cid : Cid
  data : Bytes
deriving DecidableEq, Repr

/-- Modelled from the spec (section 4.1): a `Wantlist` keeps Want-Block
entries, Want-Have entries and recorded cancels, plus the wire-level
`full` flag.  A CID appears at most once across the two want kinds. -/
structure Wantlist where
  blocks : List (Cid × Priority)
  wantHaves : List (Cid × Priority)
  cancels : List Cid
  full : Bool
deriving DecidableEq, Repr

/-- The default (empty) wantlist, `full = false`. -/
def Wantlist.default : Wantlist :=
  { blocks := [], wantHaves := [], cancels := [], full := false }

/-- Modelled from the spec: `want_block` sets the entry to Want-Block
with the given priority, overwriting any Want-Have entry. -/
def Wantlist.want_block (w : Wantlist) (c : Cid) (p : Priority) : Wantlist :=
  { w with
    wantHaves := w.wantHaves.filter (fun e => decide (e.1 ≠ c)),
    blocks := (c, p) :: w.blocks.filter (fun e => decide (e.1 ≠ c)) }

/-- Modelled from the spec: `want_have_block` sets the entry to
Want-Have only if no Want-Block entry exists for that CID. -/
def Wantlist.want_have_block (w : Wantlist) (c : Cid) (p : Priority) : Wantlist :=
  if w.blocks.any (fun e => decide (e.1 = c)) then w
  else { w with wantHaves := (c, p) :: w.wantHaves.filter (fun e => decide (e.1 ≠ c)) }

/-- Modelled from the spec: `cancel_block` removes any entry for the
CID and records a cancel. -/
def Wantlist.cancel_block (w : Wantlist) (c : Cid) : Wantlist :=
  { w with
    blocks := w.blocks.filter (fun e => decide (e.1 ≠ c)),
    wantHaves := w.wantHaves.filter (fun e => decide (e.1 ≠ c)),
    cancels := c :: w.cancels.filter (fun d => decide (d ≠ c)) }

/-- Modelled from the spec (section 4.4): `remove_block` removes the
Want-Block entry for the CID without emitting a cancel, and clears any
recorded cancel for it (the peer has already answered). -/
def Wantlist.remove_block (w : Wantlist) (c : Cid) : Wantlist :=
  { w with
    blocks := w.blocks.filter (fun e => decide (e.1 ≠ c)),
    cancels := w.cancels.filter (fun d => decide (d ≠ c)) }

/-- Modelled from the spec: `remove_want_block` drops the Want-Have
entry for the CID without producing a cancel. -/
def Wantlist.remove_want_block (w : Wantlist) (c : Cid) : Wantlist :=
  { w with wantHaves := w.wantHaves.filter (fun e => decide (e.1 ≠ c)) }

/-- `set_full` on the wantlist. -/
def Wantlist.set_full (w : Wantlist) (b : Bool) : Wantlist :=
  { w with full := b }

/-- Modelled from the spec: the wantlist delta is empty iff all three
collections are empty (the `full` flag does not count). -/
def Wantlist.is_empty (w : Wantlist) : Bool :=
  w.blocks.isEmpty && w.wantHaves.isEmpty && w.cancels.isEmpty

/-- Modelled from the spec (section 4.2): a staged wire message — a
wantlist delta, block payloads and block presences. -/
structure BitswapMessage where
  wantlist : Wantlist
  blocks : List Block
  blockPresences : List BlockPresence
deriving DecidableEq, Repr

/-- `BitswapMessage::default()`. -/
def BitswapMessage.default : BitswapMessage :=
  { wantlist := Wantlist.default, blocks := [], blockPresences := [] }

/-- Modelled from the spec: a message is empty iff payloads, presences
and the wantlist delta are all empty. -/
def BitswapMessage.is_empty (m : BitswapMessage) : Bool :=
  m.wantlist.is_empty && m.blocks.isEmpty && m.blockPresences.isEmpty

/-- `add_block` appends a payload. -/
def BitswapMessage.add_block (m : BitswapMessage) (b : Block) : BitswapMessage :=
  { m with blocks := m.blocks ++ [b] }

/-- `add_block_presence` appends a presence. -/
def BitswapMessage.add_block_presence (m : BitswapMessage) (bp : BlockPresence) : BitswapMessage :=
  { m with blockPresences := m.blockPresences ++ [bp] }

/-- `ConnState` from `behaviour.rs`. -/
inductive ConnState where
  | connected (proto : Option ProtocolId)
  | disconnected
  | dialing
deriving DecidableEq, Repr

/-- A per-peer `Ledger`: pending message, coalescing deadline (the
`last_send` sleep, embedded as an absolute deadline in milliseconds)
and connection state. -/
structure Ledger where
  peer_id : PeerId
  msg : BitswapMessage
  lastSendDeadline : Nat
  conn : ConnState
deriving DecidableEq, Repr

/-- `Ledger::new`: fresh message whose wantlist has `full = true`, a
deadline already in the past (`sleep(0)`), `conn = Disconnected`. -/
def Ledger.new (p : PeerId) : Ledger :=
  { peer_id := p,
    msg := { BitswapMessage.default with
             wantlist := Wantlist.default.set_full true },
    lastSendDeadline := 0,
    conn := ConnState.disconnected }

/-- `Ledger::is_connected`. -/
def Ledger.is_connected (l : Ledger) : Bool :=
  match l.conn with
  | ConnState.connected _ => true
  | _ => false

/-- `Ledger::is_disconnected`. -/
def Ledger.is_disconnected (l : Ledger) : Bool :=
  decide (l.conn = ConnState.disconnected)

/-- `Ledger::needs_dial`. -/
def Ledger.needs_dial (l : Ledger) : Bool :=
  decide (l.conn = ConnState.disconnected)

/-- `Ledger::is_empty`. -/
def Ledger.is_empty (l : Ledger) : Bool :=
  l.msg.is_empty

/-- `Ledger::has_blocks`. -/
def Ledger.has_blocks (l : Ledger) : Bool :=
  !l.msg.blocks.isEmpty

/-- `Ledger::send_message`: returns the staged message and installs a
fresh one with `full = false`, resetting the deadline to
`now + MESSAGE_DELAY`. -/
def Ledger.send_message (now : Nat) (l : Ledger) : BitswapMessage × Ledger :=
  let newMsg : BitswapMessage :=
    { BitswapMessage.default with wantlist := Wantlist.default.set_full false }
  (l.msg, { l with msg := newMsg, lastSendDeadline := now + MESSAGE_DELAY })

/-- `Ledger::want_block`. -/
def Ledger.want_block (l : Ledger) (c : Cid) (p : Priority) : Ledger :=
  { l with msg := { l.msg with wantlist := l.msg.wantlist.want_block c p } }

/-- `Ledger::cancel_block`. -/
def Ledger.cancel_block (l : Ledger) (c : Cid) : Ledger :=
  { l with msg := { l.msg with wantlist := l.msg.wantlist.cancel_block c } }

/-- `Ledger::remove_block`. -/
def Ledger.remove_block (l : Ledger) (c : Cid) : Ledger :=
  { l with msg := { l.msg with wantlist := l.msg.wantlist.remove_block c } }

/-- `Ledger::send_block`. -/
def Ledger.send_block (l : Ledger) (c : Cid) (d : Bytes) : Ledger :=
  { l with msg := l.msg.add_block { cid := c, data := d } }

/-- `Ledger::want_have_block`. -/
def Ledger.want_have_block (l : Ledger) (c : Cid) (p : Priority) : Ledger :=
  { l with msg := { l.msg with wantlist := l.msg.wantlist.want_have_block c p } }

/-- `Ledger::remove_want_block`. -/
def Ledger.remove_want_block (l : Ledger) (c : Cid) : Ledger :=
  { l with msg := { l.msg with wantlist := l.msg.wantlist.remove_want_block c } }

/-- `Ledger::send_have_block`. -/
def Ledger.send_have_block (l : Ledger) (c : Cid) : Ledger :=
  { l with msg := l.msg.add_block_presence (BlockPresence.mkHave c) }

/-- `QueryError` (only `Timeout`). -/
inductive QueryError where
  | timeout
deriving DecidableEq, Repr

/-- `WantResult`. -/
inductive WantResult where
  | ok (sender : PeerId) (cid : Cid) (data : Bytes)
  | err (cid : Cid) (error : QueryError)
deriving DecidableEq, Repr

/-- `FindProvidersResult`. -/
inductive FindProvidersResult where
  | ok (cid : Cid) (provider : PeerId)
  | err (cid : Cid) (error : QueryError)
deriving DecidableEq, Repr

/-- `SendResult`. -/
inductive SendResult where
  | ok (cid : Cid)
  | err (cid : Cid) (error : QueryError)
deriving DecidableEq, Repr

/-- `SendHaveResult`. -/
inductive SendHaveResult where
  | ok (cid : Cid)
  | err (cid : Cid) (error : QueryError)
deriving DecidableEq, Repr

/-- `CancelResult`. -/
inductive CancelResult where
  | ok (cid : Cid)
  | err (cid : Cid) (error : QueryError)
deriving DecidableEq, Repr

/-- `QueryResult`. -/
inductive QueryResult where
  | want (r : WantResult)
  | findProviders (r : FindProvidersResult)
  | send (r : SendResult)
  | sendHave (r : SendHaveResult)
  | cancel (r : CancelResult)
deriving DecidableEq, Repr

/-- `InboundRequest`. -/
inductive InboundRequest where
  | want (sender : PeerId) (cid : Cid) (priority : Priority)
  | wantHave (sender : PeerId) (cid : Cid) (priority : Priority)
  | cancel (sender : PeerId) (cid : Cid)
deriving DecidableEq, Repr

/-- `BitswapEvent`. -/
inductive BitswapEvent where
  | outboundQueryCompleted (result : QueryResult)
  | inboundRequest (request : InboundRequest)
deriving DecidableEq, Repr

/-- The `NetworkBehaviourAction`s the behaviour produces: a user-facing
event, a notify-handler carrying a message, or a dial request. -/
inductive NBAction where
  | generateEvent (ev : BitswapEvent)
  | notifyHandler (peer : PeerId) (msg : BitswapMessage)
  | dialAction (peer : PeerId)
deriving DecidableEq, Repr

/-- `HandlerEvent`: the handler reports the agreed protocol, or an
inbound wire message. -/
inductive HandlerEvent where
  | connected (protocol : ProtocolId)
  | message (msg : BitswapMessage)
deriving DecidableEq, Repr

/-- The `DialError` cases `inject_dial_failure` distinguishes:
connection limit, dial-peer-condition-false, and everything else. -/
inductive DialError where
  | connectionLimit
  | dialPeerConditionFalse
  | otherError
deriving DecidableEq, Repr

/-- A bounded LRU map (`caches::RawLRU`): entries most-recently-used
first; `put` inserts at the front and evicts beyond capacity. -/
structure RawLRU (α β : Type) where
  cap : Nat
  entries : List (α × β)
deriving DecidableEq, Repr

/-- Lookup without promotion (`peek`-style read). -/
def RawLRU.lookup {α β : Type} [DecidableEq α] (l : RawLRU α β) (k : α) : Option β :=
  (l.entries.find? (fun kv => decide (kv.1 = k))).map (fun kv => kv.2)

/-- `put`: insert as most-recently-used, dropping any old entry for the
key, then evict past capacity. -/
def RawLRU.put {α β : Type} [DecidableEq α] (l : RawLRU α β) (k : α) (v : β) : RawLRU α β :=
  { l with entries := ((k, v) :: l.entries.filter (fun kv => decide (kv.1 ≠ k))).take l.cap }

/-- `remove`. -/
def RawLRU.remove {α β : Type} [DecidableEq α] (l : RawLRU α β) (k : α) : RawLRU α β :=
  { l with entries := l.entries.filter (fun kv => decide (kv.1 ≠ k)) }

/-- `values_mut`-style in-place update of every value. -/
def RawLRU.mapVals {α β : Type} (l : RawLRU α β) (f : β → β) : RawLRU α β :=
  { l with entries := l.entries.map (fun kv => (kv.1, f kv.2)) }

/-- `iter_mut`-style in-place update of every entry, with its key. -/
def RawLRU.mapEntries {α β : Type} (l : RawLRU α β) (f : α → β → β) : RawLRU α β :=
  { l with entries := l.entries.map (fun kv => (kv.1, f kv.1 kv.2)) }

/-- `ProtocolConfig`: the ordered list of supported protocol ids. -/
structure ProtocolConfig where
  protocol_ids : List ProtocolId
deriving DecidableEq, Repr

/-- `BitswapConfig`. -/
structure BitswapConfig where
  max_cached_peers : Nat
  max_ledgers : Nat
  idle_timeout : Nat
  protocol_config : ProtocolConfig
deriving DecidableEq, Repr

/-- `BitswapConfig::default()`. -/
def BitswapConfig.default : BitswapConfig :=
  { max_cached_peers := 20000,
    max_ledgers := 1024,
    idle_timeout := 30,
    protocol_config := { protocol_ids :=
      [ProtocolId.bitswap120, ProtocolId.bitswap110, ProtocolId.bitswap100] } }

/-- The `Bitswap` behaviour state. -/
structure Bitswap where
  events : List NBAction
  config : BitswapConfig
  known_peers : RawLRU PeerId (Option ProtocolId)
  ledgers : RawLRU PeerId Ledger
  wantlist : Wantlist
  connection_limit : Bool
deriving DecidableEq, Repr

/-- `Bitswap::new`. -/
def Bitswap.new (config : BitswapConfig) : Bitswap :=
  { events := [],
    config := config,
    known_peers := { cap := config.max_cached_peers, entries := [] },
    ledgers := { cap := config.max_ledgers, entries := [] },
    wantlist := Wantlist.default,
    connection_limit := false }

/-- Push an action onto the back of the event FIFO. -/
def Bitswap.pushEvent (s : Bitswap) (e : NBAction) : Bitswap :=
  { s with events := s.events ++ [e] }

/-- `Bitswap::add_peer`: record the peer's agreed protocol version. -/
def Bitswap.add_peer (s : Bitswap) (p : PeerId) (proto : Option ProtocolId) : Bitswap :=
  { s with known_peers := s.known_peers.put p proto }

/-- `Bitswap::with_ledger`: run `f` on the peer's ledger; if none
exists, create a fresh one, store it, and record `(peer, None)` in
`known_peers`.  An existing ledger is promoted to most-recently-used
(`get_mut`). -/
def Bitswap.with_ledger {α : Type} (s : Bitswap) (peer : PeerId)
    (f : Ledger → Ledger × α) : Bitswap × α :=
  match s.ledgers.lookup peer with
  | some st =>
      let r := f st
      ({ s with ledgers := { s.ledgers with
           entries := (peer, r.1) :: s.ledgers.entries.filter (fun kv => decide (kv.1 ≠ peer)) } },
       r.2)
  | none =>
      let r := f (Ledger.new peer)
      let s1 := { s with ledgers := s.ledgers.put peer r.1 }
      (s1.add_peer peer none, r.2)

/-- `with_ledger` specialised to a pure mutation of the ledger. -/
def Bitswap.mutLedger (s : Bitswap) (peer : PeerId) (f : Ledger → Ledger) : Bitswap :=
  (s.with_ledger peer (fun st => (f st, ()))).1

/-- `Bitswap::want_block`: record the want globally, then record a
Want-Block in each provider's ledger. -/
def Bitswap.want_block (s : Bitswap) (c : Cid) (p : Priority)
    (providers : List PeerId) : Bitswap :=
  let s := { s with wantlist := s.wantlist.want_block c p }
  providers.foldl (fun acc q => acc.mutLedger q (fun st => st.want_block c p)) s

/-- `Bitswap::send_block`. -/
def Bitswap.send_block (s : Bitswap) (peer : PeerId) (c : Cid) (d : Bytes) : Bitswap :=
  s.mutLedger peer (fun st => st.send_block c d)

/-- `Bitswap::send_have_block`. -/
def Bitswap.send_have_block (s : Bitswap) (peer : PeerId) (c : Cid) : Bitswap :=
  s.mutLedger peer (fun st => st.send_have_block c)

/-- The provider-filter predicate of `find_providers`: Want-Have is
only supported on 1.2.0, so keep peers recorded at `None` or
`Some(Bitswap120)`. -/
def eligibleEntry (kv : PeerId × Option ProtocolId) : Bool :=
  decide (kv.2 = none) || decide (kv.2 = some ProtocolId.bitswap120)

/-- The provider list `find_providers` collects: eligible known peers,
capped at `MAX_PROVIDERS`. -/
def Bitswap.find_providers_targets (s : Bitswap) : List PeerId :=
  ((s.known_peers.entries.filter eligibleEntry).map Prod.fst).take MAX_PROVIDERS

/-- `Bitswap::find_providers`: broadcast a Want-Have to each collected
provider's ledger, then record the Want-Have globally. -/
def Bitswap.find_providers (s : Bitswap) (c : Cid) (p : Priority) : Bitswap :=
  let s2 := s.find_providers_targets.foldl
    (fun acc q => acc.mutLedger q (fun st => st.want_have_block c p)) s
  { s2 with wantlist := s2.wantlist.want_have_block c p }

/-- `Bitswap::cancel_block`: remove from the global wantlist and record
a cancel in every existing ledger. -/
def Bitswap.cancel_block (s : Bitswap) (c : Cid) : Bitswap :=
  { s with
    wantlist := s.wantlist.cancel_block c,
    ledgers := s.ledgers.mapVals (fun st => st.cancel_block c) }

/-- `Bitswap::cancel_want_block`. -/
def Bitswap.cancel_want_block (s : Bitswap) (c : Cid) : Bitswap :=
  { s with
    wantlist := s.wantlist.remove_want_block c,
    ledgers := s.ledgers.mapVals (fun st => st.remove_want_block c) }

/-- `Bitswap::dial`: refuse under connection-limit pressure; otherwise
transition the peer's ledger to `Dialing` and emit a dial action,
unless the ledger does not need a dial. -/
def Bitswap.dial (s : Bitswap) (peer : PeerId) : Bitswap × Option NBAction :=
  if s.connection_limit then (s, none)
  else
    s.with_ledger peer (fun st =>
      if !st.needs_dial then (st, none)
      else ({ st with conn := ConnState.dialing }, some (NBAction.dialAction peer)))

/-- `Ledger::poll` at instant `now`: pending while the coalescing timer
has not elapsed; when connected and the staged message is non-trivial,
emit a notify-handler action.  The disconnected-dial check sits, as in
the source, inside the `is_connected` branch. -/
def Ledger.poll (now : Nat) (l : Ledger) (bs : Bitswap) :
    Ledger × Bitswap × Option NBAction :=
  if now < l.lastSendDeadline then (l, bs, none)
  else
    if l.is_connected then
      let shouldSend := l.has_blocks || !l.is_empty
      if shouldSend then
        let r := Ledger.send_message now l
        (r.2, bs, some (NBAction.notifyHandler l.peer_id r.1))
      else
        if (!l.is_empty) && l.is_disconnected then
          let d := bs.dial l.peer_id
          (l, d.1, d.2)
        else (l, bs, none)
    else (l, bs, none)

/-- `inject_connection_established` (only `other_established = 0` acts):
record the peer with unknown protocol and mark its ledger connected. -/
def Bitswap.inject_connection_established (s : Bitswap) (p : PeerId)
    (other_established : Nat) : Bitswap :=
  if other_established = 0 then
    let s := s.add_peer p none
    s.mutLedger p (fun st => { st with conn := ConnState.connected none })
  else s

/-- `inject_connection_closed` (only `remaining_established = 0` acts):
mark the ledger disconnected and clear the connection-limit flag. -/
def Bitswap.inject_connection_closed (s : Bitswap) (p : PeerId)
    (remaining_established : Nat) : Bitswap :=
  if remaining_established = 0 then
    let s := s.mutLedger p (fun st => { st with conn := ConnState.disconnected })
    { s with connection_limit := false }
  else s

/-- `inject_dial_failure`. -/
def Bitswap.inject_dial_failure (s : Bitswap) (peer : Option PeerId)
    (error : DialError) : Bitswap :=
  match peer with
  | none => s
  | some p =>
    match error with
    | DialError.connectionLimit =>
        let s := { s with connection_limit := true }
        s.mutLedger p (fun st => { st with conn := ConnState.disconnected })
    | DialError.dialPeerConditionFalse => s
    | DialError.otherError =>
        { s with
          known_peers := s.known_peers.remove p,
          ledgers := s.ledgers.remove p }

/-- Processing of one inbound block payload (the `pop_block` loop body
of `inject_event`): cancel globally, `remove_block` in the sender's
ledger, `cancel_block` in every other, and append the `Want(Ok)`
completion event. -/
def Bitswap.processBlock (s : Bitswap) (sender : PeerId) (b : Block) : Bitswap :=
  let s := { s with wantlist := s.wantlist.cancel_block b.cid }
  let s := { s with ledgers := s.ledgers.mapEntries (fun id st =>
    if id = sender then st.remove_block b.cid else st.cancel_block b.cid) }
  s.pushEvent (NBAction.generateEvent (BitswapEvent.outboundQueryCompleted
    (QueryResult.want (WantResult.ok sender b.cid b.data))))

/-- Processing of one inbound `Have` presence: drop the Want-Have
globally and from every ledger, and append the `FindProviders(Ok)`
completion event. -/
def Bitswap.processPresence (s : Bitswap) (sender : PeerId) (bp : BlockPresence) : Bitswap :=
  let s := { s with wantlist := s.wantlist.remove_want_block bp.cid }
  let s := { s with ledgers := s.ledgers.mapVals (fun st => st.remove_want_block bp.cid) }
  s.pushEvent (NBAction.generateEvent (BitswapEvent.outboundQueryCompleted
    (QueryResult.findProviders (FindProvidersResult.ok bp.cid sender))))

/-- The `HandlerEvent::Message` branch of `inject_event`: payloads,
then `Have` presences (Dont-Have entries are filtered out), then the
inbound wantlist entries as `InboundRequest` events. -/
def Bitswap.handleMessage (s : Bitswap) (sender : PeerId) (m : BitswapMessage) : Bitswap :=
  let s := m.blocks.foldl (fun a b => a.processBlock sender b) s
  let s := (m.blockPresences.filter (fun bp => bp.is_have)).foldl
    (fun a bp => a.processPresence sender bp) s
  let s := m.wantlist.blocks.foldl (fun a e => a.pushEvent
    (NBAction.generateEvent (BitswapEvent.inboundRequest
      (InboundRequest.want sender e.1 e.2)))) s
  let s := m.wantlist.wantHaves.foldl (fun a e => a.pushEvent
    (NBAction.generateEvent (BitswapEvent.inboundRequest
      (InboundRequest.wantHave sender e.1 e.2)))) s
  m.wantlist.cancels.foldl (fun a c => a.pushEvent
    (NBAction.generateEvent (BitswapEvent.inboundRequest
      (InboundRequest.cancel sender c)))) s

/-- `inject_event`. -/
def Bitswap.inject_event (s : Bitswap) (p : PeerId) (ev : HandlerEvent) : Bitswap :=
  match ev with
  | HandlerEvent.connected proto =>
      let s := s.mutLedger p (fun st => { st with conn := ConnState.connected (some proto) })
      { s with known_peers := s.known_peers.put p (some proto) }
  | HandlerEvent.message m => s.handleMessage p m

/-- The engine commands and lifecycle notifications, as one step type
(used to state frame properties over every operation). -/
inductive EngineOp where
  | addPeer (p : PeerId) (proto : Option ProtocolId)
  | wantBlock (c : Cid) (p : Priority) (providers : List PeerId)
  | sendBlock (p : PeerId) (c : Cid) (d : Bytes)
  | sendHaveBlock (p : PeerId) (c : Cid)
  | findProviders (c : Cid) (p : Priority)
  | cancelBlock (c : Cid)
  | cancelWantBlock (c : Cid)
  | dial (p : PeerId)
  | connectionEstablished (p : PeerId) (other : Nat)
  | connectionClosed (p : PeerId) (remaining : Nat)
  | dialFailure (p : Option PeerId) (error : DialError)
  | handlerEvent (p : PeerId) (ev : HandlerEvent)
deriving DecidableEq, Repr

/-- Interpretation of one `EngineOp` on the behaviour state. -/
def stepOp (op : EngineOp) (s : Bitswap) : Bitswap :=
  match op with
  | EngineOp.addPeer p proto => s.add_peer p proto
  | EngineOp.wantBlock c p providers => s.want_block c p providers
  | EngineOp.sendBlock p c d => s.send_block p c d
  | EngineOp.sendHaveBlock p c => s.send_have_block p c
  | EngineOp.findProviders c p => s.find_providers c p
  | EngineOp.cancelBlock c => s.cancel_block c
  | EngineOp.cancelWantBlock c => s.cancel_want_block c
  | EngineOp.dial p => (s.dial p).1
  | EngineOp.connectionEstablished p other => s.inject_connection_established p other
  | EngineOp.connectionClosed p remaining => s.inject_connection_closed p remaining
  | EngineOp.dialFailure p error => s.inject_dial_failure p error
  | EngineOp.handlerEvent p ev => s.inject_event p ev

/-- `Ledger::poll` projected to the polled ledger and the emitted
message, for per-ledger temporal reasoning (the engine argument only
feeds the dead dial branch). -/
def pollL (now : Nat) (l : Ledger) : Ledger × Option BitswapMessage :=
  let r := Ledger.poll now l (Bitswap.new BitswapConfig.default)
  (r.1,
   match r.2.2 with
   | some (NBAction.notifyHandler _ m) => some m
   | _ => none)

/-- The in-place mutations the engine performs on a single ledger
(each delegates to a `Ledger` method; `setConnM` stands for the
connection-state writes done inside `with_ledger` closures). -/
inductive LedgerMut where
  | wantBlockM (c : Cid) (p : Priority)
  | cancelBlockM (c : Cid)
  | removeBlockM (c : Cid)
  | sendBlockM (c : Cid) (d : Bytes)
  | wantHaveM (c : Cid) (p : Priority)
  | removeWantM (c : Cid)
  | sendHaveM (c : Cid)
  | setConnM (cs : ConnState)
deriving DecidableEq, Repr

/-- Apply one ledger mutation. -/
def applyMut (m : LedgerMut) (l : Ledger) : Ledger :=
  match m with
  | LedgerMut.wantBlockM c p => l.want_block c p
  | LedgerMut.cancelBlockM c => l.cancel_block c
  | LedgerMut.removeBlockM c => l.remove_block c
  | LedgerMut.sendBlockM c d => l.send_block c d
  | LedgerMut.wantHaveM c p => l.want_have_block c p
  | LedgerMut.removeWantM c => l.remove_want_block c
  | LedgerMut.sendHaveM c => l.send_have_block c
  | LedgerMut.setConnM cs => { l with conn := cs }

/-- A timed action on a single ledger: a mutation or a poll. -/
inductive LAct where
  | mutA (m : LedgerMut)
  | pollA (now : Nat)
deriving DecidableEq, Repr

/-- Run a list of ledger actions, collecting the emitted messages in
order. -/
def runEmits : List LAct → Ledger → List BitswapMessage
  | [], _ => []
  | LAct.mutA m :: rest, l => runEmits rest (applyMut m l)
  | LAct.pollA t :: rest, l =>
      let r := pollL t l
      match r.2 with
      | some msg => msg :: runEmits rest r.1
      | none => runEmits rest r.1

def c5acts : List LAct :=
  [LAct.mutA (LedgerMut.setConnM (ConnState.connected none)),
   LAct.mutA (LedgerMut.wantBlockM 1 1),
   LAct.pollA 0,
   LAct.mutA (LedgerMut.wantBlockM 2 1),
   LAct.pollA 250]

def c5msg : BitswapMessage :=
  { wantlist := { blocks := [(2, 1)], wantHaves := [], cancels := [], full := false },
    blocks := [], blockPresences := [] }

def c8Ledger : Ledger :=
  { peer_id := 3,
    msg := { wantlist := { blocks := [(1, 1)], wantHaves := [], cancels := [], full := true },
             blocks := [], blockPresences := [] },
    lastSendDeadline := 0,
    conn := ConnState.connected none }

def c8muts : List LedgerMut := [LedgerMut.wantBlockM 2 1]

def c8m2 : BitswapMessage :=
  { wantlist := { blocks := [(2, 1)], wantHaves := [], cancels := [], full := false },
    blocks := [], blockPresences := [] }

def wantHaveFold (c : Cid) (pr : Priority) (ts : List PeerId) (acc : Bitswap) : Bitswap :=
  ts.foldl (fun a q => a.mutLedger q (fun st => st.want_have_block c pr)) acc

/-! ### Concrete states used by closed instances -/

def discLedger : Ledger :=
  { peer_id := 7,
    msg := { wantlist := { blocks := [(1, (1 : Int))], wantHaves := [], cancels := [],
                           full := true },
             blocks := [], blockPresences := [] },
    lastSendDeadline := 0,
    conn := ConnState.disconnected }

def emptyEngine : Bitswap := Bitswap.new BitswapConfig.default

def twoLedgerEngine : Bitswap :=
  { events := [],
    config := BitswapConfig.default,
    known_peers := { cap := 5, entries :=
      [(1, some ProtocolId.bitswap120), (2, some ProtocolId.bitswap110)] },
    ledgers := { cap := 5, entries :=
      [(1, (Ledger.new 1).want_block 9 3), (2, (Ledger.new 2).want_block 9 3)] },
    wantlist := Wantlist.default.want_block 9 3,
    connection_limit := false }


/-! ### Helper lemmas on keyed association lists and the LRU -/

theorem find?_key_filter_ne {β : Type} (xs : List (Nat × β)) (k q : Nat) (hne : k ≠ q) :
    (xs.filter (fun kv => decide (kv.1 ≠ q))).find? (fun kv => decide (kv.1 = k))
      = xs.find? (fun kv => decide (kv.1 = k)) := by
  induction xs with
  | nil => rfl
  | cons a rest ih =>
    by_cases hq : a.1 = q
    · have h1 : (decide (a.1 ≠ q)) = false := by rw [decide_eq_false_iff_not]; simp [hq]
      have h2 : ¬ ((fun (kv : Nat × β) => decide (kv.1 = k)) a = true) := by
        simp only [decide_eq_true_eq]
        rw [hq]; exact fun h => hne h.symm
      rw [List.filter_cons, if_neg (by rw [h1]; exact Bool.false_ne_true), ih]
      exact (List.find?_cons_of_neg (p := fun kv => decide (kv.1 = k)) (a := a) rest h2).symm
    · have h1 : (decide (a.1 ≠ q)) = true := by rw [decide_eq_true_eq]; exact hq
      rw [List.filter_cons, if_pos h1]
      by_cases hk : a.1 = k
      · have hpa : ((fun (kv : Nat × β) => decide (kv.1 = k)) a) = true := by simpa using hk
        exact (List.find?_cons_of_pos (p := fun kv => decide (kv.1 = k)) (a := a) _ hpa).trans
          (List.find?_cons_of_pos (p := fun kv => decide (kv.1 = k)) (a := a) _ hpa).symm
      · have hna : ¬ ((fun (kv : Nat × β) => decide (kv.1 = k)) a) = true := by simpa using hk
        exact ((List.find?_cons_of_neg (p := fun kv => decide (kv.1 = k)) (a := a) _ hna).trans
          ih).trans
          (List.find?_cons_of_neg (p := fun kv => decide (kv.1 = k)) (a := a) _ hna).symm

theorem find?_key_filter_self {β : Type} (xs : List (Nat × β)) (q : Nat) :
    (xs.filter (fun kv => decide (kv.1 ≠ q))).find? (fun kv => decide (kv.1 = q)) = none := by
  rw [List.find?_eq_none]
  intro x hx
  have := (List.mem_filter.mp hx).2
  simp at this ⊢
  exact this

theorem find?_take_some {α : Type} (p : α → Bool) (n : Nat) (xs : List α) (x : α)
    (h : (xs.take n).find? p = some x) : xs.find? p = some x := by
  induction xs generalizing n with
  | nil => simp at h
  | cons a rest ih =>
    cases n with
    | zero => simp at h
    | succ n =>
      rw [List.take_succ_cons] at h
      by_cases hp : p a
      · rw [List.find?_cons_of_pos _ hp] at h ⊢; exact h
      · rw [List.find?_cons_of_neg _ hp] at h ⊢; exact ih n h

theorem RawLRU.lookup_put_self {β : Type} (l : RawLRU Nat β) (q : Nat) (v : β)
    (hcap : 1 ≤ l.cap) : (l.put q v).lookup q = some v := by
  obtain ⟨n, hn⟩ : ∃ n, l.cap = n + 1 := ⟨l.cap - 1, by omega⟩
  simp [RawLRU.put, RawLRU.lookup, hn, List.take_succ_cons]

theorem RawLRU.lookup_put_regress {β : Type} (l : RawLRU Nat β) (q : Nat) (v : β)
    (k : Nat) (w : β) (h : (l.put q v).lookup k = some w) :
    (k = q ∧ w = v) ∨ l.lookup k = some w := by
  unfold RawLRU.put RawLRU.lookup at h
  cases hf : (((q, v) :: l.entries.filter (fun kv => decide (kv.1 ≠ q))).take l.cap).find?
      (fun kv => decide (kv.1 = k)) with
  | none => rw [hf] at h; cases h
  | some kv =>
    rw [hf] at h
    have hw : kv.2 = w := Option.some.inj h
    have hfind2 := find?_take_some _ _ _ _ hf
    rcases List.find?_cons_eq_some.mp hfind2 with ⟨hpa, hab⟩ | ⟨hna, hrest⟩
    · have hkq : q = k := by simpa using hpa
      refine Or.inl ⟨hkq.symm, ?_⟩
      rw [← hw, ← hab]
    · have hk : k ≠ q := by
        have : ¬ q = k := by simpa using hna
        exact fun h => this h.symm
      rw [find?_key_filter_ne _ _ _ hk] at hrest
      refine Or.inr ?_
      unfold RawLRU.lookup
      rw [hrest]
      exact congrArg some hw

theorem RawLRU.lookup_remove_self {β : Type} (l : RawLRU Nat β) (q : Nat) :
    (l.remove q).lookup q = none := by
  simp [RawLRU.remove, RawLRU.lookup, find?_key_filter_self]

theorem RawLRU.lookup_remove_regress {β : Type} (l : RawLRU Nat β) (q : Nat)
    (k : Nat) (w : β) (h : (l.remove q).lookup k = some w) : l.lookup k = some w := by
  by_cases hk : k = q
  · subst hk; rw [RawLRU.lookup_remove_self] at h; cases h
  · unfold RawLRU.remove RawLRU.lookup at h
    unfold RawLRU.lookup
    rw [find?_key_filter_ne _ _ _ hk] at h
    exact h

theorem RawLRU.lookup_mapEntries {β : Type} (l : RawLRU Nat β) (f : Nat → β → β) (k : Nat) :
    (l.mapEntries f).lookup k = (l.lookup k).map (fun v => f k v) := by
  show ((l.entries.map (fun kv => (kv.1, f kv.1 kv.2))).find?
          (fun kv => decide (kv.1 = k))).map (fun kv => kv.2)
      = ((l.entries.find? (fun kv => decide (kv.1 = k))).map (fun kv => kv.2)).map
          (fun v => f k v)
  induction l.entries with
  | nil => rfl
  | cons a rest ih =>
    by_cases hk : a.1 = k
    · subst hk
      rw [List.map_cons, List.find?_cons_of_pos _ (by simp), List.find?_cons_of_pos _ (by simp)]
      rfl
    · rw [List.map_cons, List.find?_cons_of_neg _ (by simpa using hk),
          List.find?_cons_of_neg _ (by simpa using hk)]
      exact ih

theorem RawLRU.lookup_mapVals {β : Type} (l : RawLRU Nat β) (f : β → β) (k : Nat) :
    (l.mapVals f).lookup k = (l.lookup k).map f := by
  have : l.mapVals f = l.mapEntries (fun _ v => f v) := rfl
  rw [this, RawLRU.lookup_mapEntries]

/-! ### Helper lemmas on `with_ledger` and `mutLedger` -/

theorem mutLedger_fields (s : Bitswap) (q : PeerId) (f : Ledger → Ledger) :
    (s.mutLedger q f).wantlist = s.wantlist
    ∧ (s.mutLedger q f).connection_limit = s.connection_limit
    ∧ (s.mutLedger q f).events = s.events
    ∧ (s.mutLedger q f).ledgers.cap = s.ledgers.cap
    ∧ (s.mutLedger q f).known_peers.cap = s.known_peers.cap := by
  unfold Bitswap.mutLedger Bitswap.with_ledger
  cases s.ledgers.lookup q <;>
    simp [Bitswap.add_peer, RawLRU.put]

theorem mutLedger_lookup_self (s : Bitswap) (q : PeerId) (f : Ledger → Ledger)
    (hcap : 1 ≤ s.ledgers.cap) :
    (s.mutLedger q f).ledgers.lookup q
      = some (f ((s.ledgers.lookup q).getD (Ledger.new q))) := by
  unfold Bitswap.mutLedger Bitswap.with_ledger
  cases hl : s.ledgers.lookup q with
  | some st => simp [RawLRU.lookup]
  | none =>
    simp only [Option.getD_none]
    show ((s.ledgers.put q (f (Ledger.new q))).lookup q) = _
    exact RawLRU.lookup_put_self _ _ _ hcap

theorem mutLedger_lookup_other (s : Bitswap) (q : PeerId) (f : Ledger → Ledger)
    (k : PeerId) (hne : k ≠ q)
    (hsafe : s.ledgers.entries.length < s.ledgers.cap ∨ (s.ledgers.lookup q).isSome) :
    (s.mutLedger q f).ledgers.lookup k = s.ledgers.lookup k := by
  unfold Bitswap.mutLedger Bitswap.with_ledger
  cases hl : s.ledgers.lookup q with
  | some st =>
    show (((q, f st) :: s.ledgers.entries.filter (fun kv => decide (kv.1 ≠ q))).find?
            (fun kv => decide (kv.1 = k))).map (fun kv => kv.2) = _
    rw [List.find?_cons_of_neg _ (by simp; exact fun h => hne h.symm),
        find?_key_filter_ne _ _ _ hne]
    rfl
  | none =>
    have hall : s.ledgers.entries.filter (fun kv => decide (kv.1 ≠ q)) = s.ledgers.entries := by
      apply List.filter_eq_self.mpr
      intro kv hkv
      have hnone := hl
      simp only [RawLRU.lookup, Option.map_eq_none'] at hnone
      rw [List.find?_eq_none] at hnone
      have := hnone kv hkv
      simpa using this
    have hlen : s.ledgers.entries.length < s.ledgers.cap := by
      rcases hsafe with h | h
      · exact h
      · rw [hl] at h; cases h
    show ((s.ledgers.put q (f (Ledger.new q))).lookup k) = _
    simp only [RawLRU.put, RawLRU.lookup, hall]
    rw [List.take_of_length_le (by simp; omega)]
    rw [List.find?_cons_of_neg _ (by simp; exact fun h => hne h.symm)]

theorem mutLedger_length_le (s : Bitswap) (q : PeerId) (f : Ledger → Ledger) :
    (s.mutLedger q f).ledgers.entries.length ≤ s.ledgers.entries.length + 1 := by
  unfold Bitswap.mutLedger Bitswap.with_ledger
  cases hl : s.ledgers.lookup q with
  | some st =>
    show ((q, f st) :: s.ledgers.entries.filter (fun kv => decide (kv.1 ≠ q))).length ≤ _
    have h2 := List.length_filter_le (fun kv => decide (kv.1 ≠ q)) s.ledgers.entries
    rw [List.length_cons]
    omega
  | none =>
    show (List.take s.ledgers.cap
      ((q, f (Ledger.new q)) :: s.ledgers.entries.filter (fun kv => decide (kv.1 ≠ q)))).length
        ≤ s.ledgers.entries.length + 1
    have h1 : (List.take s.ledgers.cap
        ((q, f (Ledger.new q)) :: s.ledgers.entries.filter (fun kv => decide (kv.1 ≠ q)))).length
        ≤ ((q, f (Ledger.new q)) :: s.ledgers.entries.filter (fun kv => decide (kv.1 ≠ q))).length := by
      rw [List.length_take]
      exact Nat.min_le_right _ _
    have h2 := List.length_filter_le (fun kv => decide (kv.1 ≠ q)) s.ledgers.entries
    rw [List.length_cons] at h1
    omega

theorem withLedger_known_of_exists {α : Type} (s : Bitswap) (q : PeerId)
    (f : Ledger → Ledger × α) (st : Ledger) (hl : s.ledgers.lookup q = some st) :
    (s.with_ledger q f).1.known_peers = s.known_peers := by
  unfold Bitswap.with_ledger
  rw [hl]

theorem withLedger_creates_known_none {α : Type} (s : Bitswap) (q : PeerId)
    (f : Ledger → Ledger × α) (hl : s.ledgers.lookup q = none)
    (hcap : 1 ≤ s.known_peers.cap) :
    (s.with_ledger q f).1.known_peers.lookup q = some none := by
  unfold Bitswap.with_ledger
  rw [hl]
  show ((s.known_peers.put q none).lookup q) = some none
  exact RawLRU.lookup_put_self _ _ _ hcap

theorem withLedger_known_lookup {α : Type} (s : Bitswap) (q : PeerId)
    (f : Ledger → Ledger × α) (k : PeerId) (w : Option ProtocolId)
    (h : (s.with_ledger q f).1.known_peers.lookup k = some w) :
    s.known_peers.lookup k = some w ∨ w = none := by
  unfold Bitswap.with_ledger at h
  cases hl : s.ledgers.lookup q with
  | some st => rw [hl] at h; exact Or.inl h
  | none =>
    rw [hl] at h
    have h2 : ((s.known_peers.put q none).lookup k) = some w := h
    rcases RawLRU.lookup_put_regress _ _ _ _ _ h2 with ⟨_, hw⟩ | hold
    · exact Or.inr hw
    · exact Or.inl hold

theorem mutLedger_known_lookup (s : Bitswap) (q : PeerId) (f : Ledger → Ledger)
    (k : PeerId) (w : Option ProtocolId)
    (h : (s.mutLedger q f).known_peers.lookup k = some w) :
    s.known_peers.lookup k = some w ∨ w = none :=
  withLedger_known_lookup s q _ k w h

theorem foldl_mutLedger_known_lookup (ts : List PeerId) (fk : PeerId → Ledger → Ledger)
    (s : Bitswap) (k : PeerId) (w : Option ProtocolId)
    (h : (ts.foldl (fun acc q => acc.mutLedger q (fk q)) s).known_peers.lookup k = some w) :
    s.known_peers.lookup k = some w ∨ w = none := by
  induction ts generalizing s with
  | nil => exact Or.inl h
  | cons t rest ih =>
    rw [List.foldl_cons] at h
    rcases ih _ h with h2 | h2
    · exact mutLedger_known_lookup _ _ _ _ _ h2
    · exact Or.inr h2

theorem foldl_known_eq {γ : Type} (g : Bitswap → γ → Bitswap)
    (hg : ∀ a b, (g a b).known_peers = a.known_peers) (xs : List γ) (s : Bitswap) :
    (xs.foldl g s).known_peers = s.known_peers := by
  induction xs generalizing s with
  | nil => rfl
  | cons x rest ih => rw [List.foldl_cons, ih, hg]

theorem processBlock_known (s : Bitswap) (sender : PeerId) (b : Block) :
    (s.processBlock sender b).known_peers = s.known_peers := rfl

theorem processPresence_known (s : Bitswap) (sender : PeerId) (bp : BlockPresence) :
    (s.processPresence sender bp).known_peers = s.known_peers := rfl

theorem handleMessage_known (s : Bitswap) (sender : PeerId) (m : BitswapMessage) :
    (s.handleMessage sender m).known_peers = s.known_peers := by
  unfold Bitswap.handleMessage
  exact (foldl_known_eq
      (fun a c => a.pushEvent (NBAction.generateEvent (BitswapEvent.inboundRequest
        (InboundRequest.cancel sender c)))) (fun a c => rfl) _ _).trans
    ((foldl_known_eq
      (fun a (e : Cid × Priority) => a.pushEvent (NBAction.generateEvent (BitswapEvent.inboundRequest
        (InboundRequest.wantHave sender e.1 e.2)))) (fun a e => rfl) _ _).trans
      ((foldl_known_eq
        (fun a (e : Cid × Priority) => a.pushEvent (NBAction.generateEvent (BitswapEvent.inboundRequest
          (InboundRequest.want sender e.1 e.2)))) (fun a e => rfl) _ _).trans
        ((foldl_known_eq (fun a bp => a.processPresence sender bp)
          (fun a bp => rfl) _ _).trans
          (foldl_known_eq (fun a b => a.processBlock sender b)
            (fun a b => rfl) _ _))))

/-! ### Ledger poll and mutation lemmas -/

theorem connected_not_disconnected (l : Ledger) (h : l.is_connected = true) :
    l.is_disconnected = false := by
  unfold Ledger.is_connected at h
  unfold Ledger.is_disconnected
  cases hc : l.conn with
  | connected p => simp [hc]
  | disconnected => rw [hc] at h; cases h
  | dialing => simp [hc]

theorem pollL_spec (t : Nat) (l : Ledger) :
    ((pollL t l).2 = none ∧ (pollL t l).1 = l)
    ∨ (l.lastSendDeadline ≤ t ∧ (pollL t l).2 = some l.msg
       ∧ (pollL t l).1.lastSendDeadline = t + MESSAGE_DELAY
       ∧ (pollL t l).1.msg.wantlist.full = false) := by
  by_cases h1 : t < l.lastSendDeadline
  · left
    constructor <;> simp [pollL, Ledger.poll, h1]
  · by_cases h2 : l.is_connected = true
    · by_cases h3 : (l.has_blocks || !l.is_empty) = true
      · right
        refine ⟨Nat.le_of_not_lt h1, ?_, ?_, ?_⟩ <;>
          simp [pollL, Ledger.poll, h1, h2, h3, Ledger.send_message,
                Wantlist.set_full, Wantlist.default]
      · left
        have h4 : l.is_disconnected = false := connected_not_disconnected l h2
        constructor <;> simp [pollL, Ledger.poll, h1, h2, h3, h4]
    · left
      constructor <;> simp [pollL, Ledger.poll, h1, h2]

theorem applyMut_deadline (m : LedgerMut) (l : Ledger) :
    (applyMut m l).lastSendDeadline = l.lastSendDeadline := by
  cases m <;>
    simp [applyMut, Ledger.want_block, Ledger.cancel_block, Ledger.remove_block,
          Ledger.send_block, Ledger.want_have_block, Ledger.remove_want_block,
          Ledger.send_have_block, BitswapMessage.add_block, BitswapMessage.add_block_presence]

theorem applyMut_full (m : LedgerMut) (l : Ledger) :
    (applyMut m l).msg.wantlist.full = l.msg.wantlist.full := by
  cases m with
  | wantHaveM c p =>
    unfold applyMut Ledger.want_have_block Wantlist.want_have_block
    by_cases h : l.msg.wantlist.blocks.any (fun e => decide (e.1 = c)) = true <;> simp [h]
  | _ =>
    simp [applyMut, Ledger.want_block, Ledger.cancel_block, Ledger.remove_block,
          Ledger.send_block, Ledger.want_have_block, Ledger.remove_want_block,
          Ledger.send_have_block, BitswapMessage.add_block, BitswapMessage.add_block_presence,
          Wantlist.want_block, Wantlist.cancel_block, Wantlist.remove_block,
          Wantlist.remove_want_block]

theorem foldl_applyMut_deadline (ms : List LedgerMut) (l : Ledger) :
    (ms.foldl (fun a m => applyMut m a) l).lastSendDeadline = l.lastSendDeadline := by
  induction ms generalizing l with
  | nil => rfl
  | cons m rest ih => rw [List.foldl_cons, ih, applyMut_deadline]

/-! ### Wantlist result lemmas -/

theorem not_mem_map_fst_filter_ne (xs : List (Cid × Priority)) (c : Cid) :
    ¬ c ∈ (xs.filter (fun e => decide (e.1 ≠ c))).map Prod.fst := by
  intro h
  rcases List.mem_map.mp h with ⟨e, he, hfst⟩
  have h2 := (List.mem_filter.mp he).2
  rw [hfst] at h2
  simp at h2

theorem not_mem_filter_ne (xs : List Cid) (c : Cid) :
    ¬ c ∈ xs.filter (fun d => decide (d ≠ c)) := by
  intro h
  have h2 := (List.mem_filter.mp h).2
  simp at h2

/-! ### Claim theorems -/

/-- C1: the claim says a poll of a ledger whose timer has elapsed, whose
pending message is non-empty and whose `conn` is `Disconnected` asks the
engine to dial.  The code does not: the disconnected-dial branch of
`Ledger::poll` is nested inside `if self.is_connected()`, so it is
unreachable, and such a poll returns `Pending` without touching the
engine — exhibited here on a concrete elapsed, non-empty, disconnected
ledger. -/
theorem poll_disconnected_pending_never_dials :
    discLedger.conn = ConnState.disconnected
    ∧ discLedger.is_empty = false
    ∧ discLedger.lastSendDeadline ≤ 5
    ∧ emptyEngine.connection_limit = false
    ∧ Ledger.poll 5 discLedger emptyEngine = (discLedger, emptyEngine, none) := by
  refine ⟨rfl, by decide, by decide, rfl, by decide⟩

/-- C2: processing an inbound block payload with CID `c` from sender `s`
leaves no entry for `c` in the global wantlist, leaves a pending Cancel
for `c` in every ledger other than the sender's, leaves the sender's
ledger with neither a pending Want-Block nor a pending Cancel for `c`,
and appends the `Want(Ok{sender, cid, bytes})` completion event to the
event FIFO. -/
theorem inbound_block_processing (s : Bitswap) (sender : PeerId) (b : Block) :
    (¬ b.cid ∈ (s.processBlock sender b).wantlist.blocks.map Prod.fst
      ∧ ¬ b.cid ∈ (s.processBlock sender b).wantlist.wantHaves.map Prod.fst)
    ∧ (∀ e ∈ (s.processBlock sender b).ledgers.entries, e.1 ≠ sender →
        b.cid ∈ e.2.msg.wantlist.cancels)
    ∧ (∀ e ∈ (s.processBlock sender b).ledgers.entries, e.1 = sender →
        ¬ b.cid ∈ e.2.msg.wantlist.blocks.map Prod.fst
        ∧ ¬ b.cid ∈ e.2.msg.wantlist.cancels)
    ∧ (s.processBlock sender b).events
        = s.events ++ [NBAction.generateEvent (BitswapEvent.outboundQueryCompleted
            (QueryResult.want (WantResult.ok sender b.cid b.data)))] := by
  have hentries : (s.processBlock sender b).ledgers.entries
      = s.ledgers.entries.map (fun kv =>
          (kv.1, if kv.1 = sender then kv.2.remove_block b.cid
                 else kv.2.cancel_block b.cid)) := rfl
  refine ⟨⟨?_, ?_⟩, ?_, ?_, rfl⟩
  · exact not_mem_map_fst_filter_ne _ _
  · exact not_mem_map_fst_filter_ne _ _
  · intro e he hne
    rw [hentries] at he
    rcases List.mem_map.mp he with ⟨kv, _, hekv⟩
    have h1 : e.1 = kv.1 := by rw [← hekv]
    have h2 : e.2 = if kv.1 = sender then kv.2.remove_block b.cid
        else kv.2.cancel_block b.cid := by rw [← hekv]
    rw [h1] at hne
    rw [h2, if_neg hne]
    exact List.mem_cons_self _ _
  · intro e he hsender
    rw [hentries] at he
    rcases List.mem_map.mp he with ⟨kv, _, hekv⟩
    have h1 : e.1 = kv.1 := by rw [← hekv]
    have h2 : e.2 = if kv.1 = sender then kv.2.remove_block b.cid
        else kv.2.cancel_block b.cid := by rw [← hekv]
    rw [h1] at hsender
    rw [h2, if_pos hsender]
    exact ⟨not_mem_map_fst_filter_ne _ _, not_mem_filter_ne _ _⟩

theorem inbound_block_processing_w :
    ((2, ((Ledger.new 2).want_block 9 3).cancel_block 9)
        ∈ (twoLedgerEngine.processBlock 1 ⟨9, [5]⟩).ledgers.entries)
    ∧ (9 : Cid) ∈ (((Ledger.new 2).want_block 9 3).cancel_block 9).msg.wantlist.cancels
    ∧ (¬ (9 : Cid) ∈ (((Ledger.new 1).want_block 9 3).remove_block 9).msg.wantlist.blocks.map
          Prod.fst) := by
  refine ⟨by decide, ?_, ?_⟩
  · exact (inbound_block_processing twoLedgerEngine 1 ⟨9, [5]⟩).2.1
      (2, ((Ledger.new 2).want_block 9 3).cancel_block 9) (by decide) (by decide)
  · exact ((inbound_block_processing twoLedgerEngine 1 ⟨9, [5]⟩).2.2.1
      (1, ((Ledger.new 1).want_block 9 3).remove_block 9) (by decide) (by decide)).1

/-- C3: `cancel_block(c)` removes `c` from the global wantlist and
records a Cancel for `c` in every existing ledger; immediately
afterwards no ledger has `c` in its pending Want-Block set. -/
theorem cancel_block_updates_every_ledger (s : Bitswap) (c : Cid) :
    (¬ c ∈ (s.cancel_block c).wantlist.blocks.map Prod.fst
      ∧ ¬ c ∈ (s.cancel_block c).wantlist.wantHaves.map Prod.fst)
    ∧ ∀ e ∈ (s.cancel_block c).ledgers.entries,
        c ∈ e.2.msg.wantlist.cancels
        ∧ ¬ c ∈ e.2.msg.wantlist.blocks.map Prod.fst := by
  have hentries : (s.cancel_block c).ledgers.entries
      = s.ledgers.entries.map (fun kv => (kv.1, kv.2.cancel_block c)) := rfl
  refine ⟨⟨not_mem_map_fst_filter_ne _ _, not_mem_map_fst_filter_ne _ _⟩, ?_⟩
  intro e he
  rw [hentries] at he
  rcases List.mem_map.mp he with ⟨kv, _, hekv⟩
  have h2 : e.2 = kv.2.cancel_block c := by rw [← hekv]
  rw [h2]
  exact ⟨List.mem_cons_self _ _, not_mem_map_fst_filter_ne _ _⟩

theorem cancel_block_updates_every_ledger_w :
    ((1, ((Ledger.new 1).want_block 9 3).cancel_block 9)
        ∈ (twoLedgerEngine.cancel_block 9).ledgers.entries)
    ∧ (9 : Cid) ∈ (((Ledger.new 1).want_block 9 3).cancel_block 9).msg.wantlist.cancels
    ∧ ¬ (9 : Cid) ∈ (((Ledger.new 1).want_block 9 3).cancel_block 9).msg.wantlist.blocks.map
        Prod.fst := by
  refine ⟨by decide, ?_, ?_⟩
  · exact ((cancel_block_updates_every_ledger twoLedgerEngine 9).2
      (1, ((Ledger.new 1).want_block 9 3).cancel_block 9) (by decide)).1
  · exact ((cancel_block_updates_every_ledger twoLedgerEngine 9).2
      (1, ((Ledger.new 1).want_block 9 3).cancel_block 9) (by decide)).2

/-- C7: a dial failure that is neither a connection limit nor
dial-peer-condition-false removes the peer from `known_peers` and drops
its ledger; a dial-peer-condition-false failure changes nothing. -/
theorem dial_failure_other_removes_peer (s : Bitswap) (p : PeerId) :
    s.inject_dial_failure (some p) DialError.otherError
      = { s with known_peers := s.known_peers.remove p, ledgers := s.ledgers.remove p }
    ∧ (s.inject_dial_failure (some p) DialError.otherError).known_peers.lookup p = none
    ∧ (s.inject_dial_failure (some p) DialError.otherError).ledgers.lookup p = none
    ∧ s.inject_dial_failure (some p) DialError.dialPeerConditionFalse = s := by
  exact ⟨rfl, RawLRU.lookup_remove_self _ _, RawLRU.lookup_remove_self _ _, rfl⟩

/-- C9: `DontHave` block presences in an inbound message are ignored —
processing a message is identical to processing the same message with
every non-`Have` presence removed, so they change no engine state and
emit no event. -/
theorem dont_have_presences_ignored (s : Bitswap) (sender : PeerId) (m : BitswapMessage) :
    s.handleMessage sender m
      = s.handleMessage sender
          { m with blockPresences := m.blockPresences.filter (fun bp => bp.is_have) } := by
  unfold Bitswap.handleMessage
  simp only [List.filter_filter, Bool.and_self]

theorem runEmits_full_aux (acts : List LAct) (l : Ledger) (i : Nat) (m : BitswapMessage)
    (h : (runEmits acts l).get? i = some m) :
    m.wantlist.full = if i = 0 then l.msg.wantlist.full else false := by
  induction acts generalizing l i with
  | nil => simp [runEmits] at h
  | cons a rest ih =>
    cases a with
    | mutA mu =>
      rw [show runEmits (LAct.mutA mu :: rest) l = runEmits rest (applyMut mu l) from rfl] at h
      rw [ih _ _ h, applyMut_full]
    | pollA t =>
      rcases pollL_spec t l with ⟨hnone, heq⟩ | ⟨hle, hsome, hdl, hfull⟩
      · have hr : runEmits (LAct.pollA t :: rest) l = runEmits rest (pollL t l).1 := by
          simp [runEmits, hnone]
        rw [hr, heq] at h
        exact ih _ _ h
      · have hr : runEmits (LAct.pollA t :: rest) l = l.msg :: runEmits rest (pollL t l).1 := by
          simp [runEmits, hsome]
        rw [hr] at h
        cases i with
        | zero =>
          have hm : l.msg = m := Option.some.inj h
          rw [← hm]
          simp
        | succ i =>
          rw [List.get?_cons_succ] at h
          rw [ih _ _ h]
          simp [hfull]

/-- C5: the first message a ledger emits through `send_message` has the
wantlist `full` flag set, and every later message emitted by the same
ledger has it cleared — over any sequence of mutations and polls run
against a freshly created ledger. -/
theorem first_emitted_message_full (p : PeerId) (acts : List LAct) (i : Nat)
    (m : BitswapMessage) (h : (runEmits acts (Ledger.new p)).get? i = some m) :
    m.wantlist.full = decide (i = 0) := by
  have haux := runEmits_full_aux acts (Ledger.new p) i m h
  by_cases hi : i = 0
  · subst hi
    simpa using haux
  · rw [haux, if_neg hi]
    simp [hi]



theorem first_emitted_message_full_w :
    (runEmits c5acts (Ledger.new 0)).get? 1 = some c5msg
    ∧ c5msg.wantlist.full = decide ((1 : Nat) = 0) := by
  refine ⟨by decide, first_emitted_message_full 0 c5acts 1 c5msg (by decide)⟩

/-- C8: between two consecutive notify-handler emissions of one ledger
at least `MESSAGE_DELAY` elapses on the ledger's own timer — a send is
only produced once the deadline has elapsed, a send resets the deadline
to `now + MESSAGE_DELAY`, and the engine's other ledger mutations leave
the deadline untouched. -/
theorem message_delay_between_sends (l : Ledger) (t1 t2 : Nat) (ms : List LedgerMut)
    (m1 m2 : BitswapMessage)
    (h1 : (pollL t1 l).2 = some m1)
    (h2 : (pollL t2 (ms.foldl (fun a mu => applyMut mu a) (pollL t1 l).1)).2 = some m2) :
    l.lastSendDeadline ≤ t1 ∧ t1 + MESSAGE_DELAY ≤ t2 := by
  rcases pollL_spec t1 l with ⟨hn, _⟩ | ⟨hle, hsome, hdl, _⟩
  · rw [hn] at h1; cases h1
  · refine ⟨hle, ?_⟩
    have hd2 : (ms.foldl (fun a mu => applyMut mu a) (pollL t1 l).1).lastSendDeadline
        = t1 + MESSAGE_DELAY := by
      rw [foldl_applyMut_deadline, hdl]
    rcases pollL_spec t2 (ms.foldl (fun a mu => applyMut mu a) (pollL t1 l).1) with
      ⟨hn2, _⟩ | ⟨hle2, _, _, _⟩
    · rw [hn2] at h2; cases h2
    · omega




theorem message_delay_between_sends_w :
    (pollL 0 c8Ledger).2 = some c8Ledger.msg
    ∧ (pollL 250 (c8muts.foldl (fun a mu => applyMut mu a) (pollL 0 c8Ledger).1)).2 = some c8m2
    ∧ (c8Ledger.lastSendDeadline ≤ 0 ∧ 0 + MESSAGE_DELAY ≤ 250) := by
  refine ⟨by decide, by decide,
    message_delay_between_sends c8Ledger 0 250 c8muts c8Ledger.msg c8m2 (by decide) (by decide)⟩

/-- C6: a dial failure with `ConnectionLimit` for peer `p` sets
`connection_limit`, leaves `p`'s ledger present with
`conn = Disconnected` and keeps `p` in `known_peers`; while the flag is
set `dial` attempts nothing for any peer; and the flag is cleared when
any peer's last connection closes. -/
theorem connection_limit_dial_failure (s : Bitswap) (p : PeerId) (v : Option ProtocolId)
    (hcapK : 1 ≤ s.known_peers.cap) (hcapL : 1 ≤ s.ledgers.cap)
    (hknown : s.known_peers.lookup p = some v) :
    (s.inject_dial_failure (some p) DialError.connectionLimit).connection_limit = true
    ∧ ((s.inject_dial_failure (some p) DialError.connectionLimit).ledgers.lookup p).map
        (fun l => l.conn) = some ConnState.disconnected
    ∧ (s.inject_dial_failure (some p) DialError.connectionLimit).known_peers.lookup p ≠ none
    ∧ (s.inject_dial_failure (some p) DialError.connectionLimit).ledgers.lookup p ≠ none
    ∧ (∀ (s2 : Bitswap) (q : PeerId), s2.connection_limit = true → s2.dial q = (s2, none))
    ∧ ∀ (s2 : Bitswap) (q : PeerId),
        (s2.inject_connection_closed q 0).connection_limit = false := by
  have hself := mutLedger_lookup_self { s with connection_limit := true } p
    (fun st => { st with conn := ConnState.disconnected }) hcapL
  refine ⟨?_, ?_, ?_, ?_, ?_, ?_⟩
  · exact ((mutLedger_fields { s with connection_limit := true } p
      (fun st => { st with conn := ConnState.disconnected })).2.1).trans rfl
  · show ((({ s with connection_limit := true } : Bitswap).mutLedger p
      (fun st => { st with conn := ConnState.disconnected })).ledgers.lookup p).map
        (fun l => l.conn) = some ConnState.disconnected
    rw [hself]
    rfl
  · show (({ s with connection_limit := true } : Bitswap).mutLedger p
      (fun st => { st with conn := ConnState.disconnected })).known_peers.lookup p ≠ none
    cases hl : s.ledgers.lookup p with
    | some st =>
      have hres := withLedger_known_of_exists { s with connection_limit := true } p
        (fun st => ({ st with conn := ConnState.disconnected }, ())) st hl
      unfold Bitswap.mutLedger
      rw [hres]
      show s.known_peers.lookup p ≠ none
      rw [hknown]
      exact Option.some_ne_none v
    | none =>
      have hres := withLedger_creates_known_none { s with connection_limit := true } p
        (fun st => ({ st with conn := ConnState.disconnected }, ())) hl hcapK
      unfold Bitswap.mutLedger
      rw [hres]
      exact Option.some_ne_none none
  · show (({ s with connection_limit := true } : Bitswap).mutLedger p
      (fun st => { st with conn := ConnState.disconnected })).ledgers.lookup p ≠ none
    rw [hself]
    exact Option.some_ne_none _
  · intro s2 q h
    simp [Bitswap.dial, h]
  · intro s2 q
    simp [Bitswap.inject_connection_closed]

theorem connection_limit_dial_failure_w :
    (1 ≤ twoLedgerEngine.known_peers.cap ∧ 1 ≤ twoLedgerEngine.ledgers.cap
      ∧ twoLedgerEngine.known_peers.lookup 1 = some (some ProtocolId.bitswap120))
    ∧ (twoLedgerEngine.inject_dial_failure (some 1)
        DialError.connectionLimit).connection_limit = true := by
  refine ⟨⟨by decide, by decide, by decide⟩,
    (connection_limit_dial_failure twoLedgerEngine 1 (some ProtocolId.bitswap120)
      (by decide) (by decide) (by decide)).1⟩


theorem find?_key_of_mem_nodup {β : Type} (xs : List (Nat × β))
    (hnd : (xs.map Prod.fst).Nodup) (k : Nat) (v : β) (hmem : (k, v) ∈ xs) :
    xs.find? (fun kv => decide (kv.1 = k)) = some (k, v) := by
  induction xs with
  | nil => cases hmem
  | cons a rest ih =>
    have hnd' : (a.1 :: rest.map Prod.fst).Nodup := by
      rw [List.map_cons] at hnd; exact hnd
    have hnd2 := List.nodup_cons.mp hnd'
    rcases List.mem_cons.mp hmem with heq | hmem2
    · rw [← heq]
      exact List.find?_cons_of_pos (p := fun kv => decide (kv.1 = k)) (a := (k, v)) _ (by simp)
    · have hk : a.1 ≠ k := by
        intro hak
        exact hnd2.1 (by rw [hak]; exact List.mem_map.mpr ⟨(k, v), hmem2, rfl⟩)
      rw [List.find?_cons_of_neg (p := fun kv => decide (kv.1 = k)) (a := a) _ (by simpa using hk)]
      exact ih hnd2.2 hmem2

theorem lookup_eq_some_of_mem_nodup {β : Type} (l : RawLRU Nat β)
    (hnd : (l.entries.map Prod.fst).Nodup) (k : Nat) (v : β) (hmem : (k, v) ∈ l.entries) :
    l.lookup k = some v := by
  unfold RawLRU.lookup
  rw [find?_key_of_mem_nodup l.entries hnd k v hmem]
  rfl

theorem mem_of_lookup_eq_some {β : Type} (l : RawLRU Nat β) (k : Nat) (v : β)
    (h : l.lookup k = some v) : (k, v) ∈ l.entries := by
  unfold RawLRU.lookup at h
  cases hf : l.entries.find? (fun kv => decide (kv.1 = k)) with
  | none => rw [hf] at h; cases h
  | some kv =>
    rw [hf] at h
    have h2 : kv.2 = v := Option.some.inj h
    have hkey : kv.1 = k := by simpa using List.find?_some hf
    have hmem := List.mem_of_find?_eq_some hf
    rw [← h2, ← hkey]
    simpa using hmem

theorem wantHaveFold_spec (c : Cid) (pr : Priority) (ts : List PeerId) :
    ∀ (acc : Bitswap), ts.Nodup →
      acc.ledgers.entries.length + ts.length ≤ acc.ledgers.cap →
      ((∀ q ∈ ts, (wantHaveFold c pr ts acc).ledgers.lookup q
          = some (((acc.ledgers.lookup q).getD (Ledger.new q)).want_have_block c pr))
       ∧ (∀ q, ¬ q ∈ ts →
            (wantHaveFold c pr ts acc).ledgers.lookup q = acc.ledgers.lookup q)
       ∧ (wantHaveFold c pr ts acc).ledgers.entries.length
            ≤ acc.ledgers.entries.length + ts.length
       ∧ (wantHaveFold c pr ts acc).ledgers.cap = acc.ledgers.cap
       ∧ (wantHaveFold c pr ts acc).wantlist = acc.wantlist) := by
  induction ts with
  | nil =>
    intro acc _ _
    exact ⟨by simp, fun q _ => rfl, by simp [wantHaveFold], rfl, rfl⟩
  | cons t rest ih =>
    intro acc hnd hlen
    have hnd2 := List.nodup_cons.mp hnd
    have hlt : acc.ledgers.entries.length < acc.ledgers.cap := by
      rw [List.length_cons] at hlen; omega
    have hcap1 : 1 ≤ acc.ledgers.cap := by omega
    have hfields := mutLedger_fields acc t (fun st => st.want_have_block c pr)
    have hlenle := mutLedger_length_le acc t (fun st => st.want_have_block c pr)
    have hlen2 : (acc.mutLedger t (fun st => st.want_have_block c pr)).ledgers.entries.length
        + rest.length
        ≤ (acc.mutLedger t (fun st => st.want_have_block c pr)).ledgers.cap := by
      rw [hfields.2.2.2.1]
      rw [List.length_cons] at hlen
      omega
    obtain ⟨ihin, ihout, ihlen, ihcap, ihwl⟩ :=
      ih (acc.mutLedger t (fun st => st.want_have_block c pr)) hnd2.2 hlen2
    have hfold : wantHaveFold c pr (t :: rest) acc
        = wantHaveFold c pr rest (acc.mutLedger t (fun st => st.want_have_block c pr)) := rfl
    refine ⟨?_, ?_, ?_, ?_, ?_⟩
    · intro q hq
      rcases List.mem_cons.mp hq with hqt | hqr
      · subst hqt
        rw [hfold, ihout q hnd2.1,
            mutLedger_lookup_self acc q (fun st => st.want_have_block c pr) hcap1]
      · have hne : q ≠ t := fun h => hnd2.1 (h ▸ hqr)
        rw [hfold, ihin q hqr,
            mutLedger_lookup_other acc t (fun st => st.want_have_block c pr) q hne
              (Or.inl hlt)]
    · intro q hq
      have hne : q ≠ t := fun h => hq (h ▸ List.mem_cons_self t rest)
      have hqr : ¬ q ∈ rest := fun h => hq (List.mem_cons_of_mem t h)
      rw [hfold, ihout q hqr,
          mutLedger_lookup_other acc t (fun st => st.want_have_block c pr) q hne (Or.inl hlt)]
    · rw [hfold]
      rw [List.length_cons]
      omega
    · rw [hfold, ihcap, hfields.2.2.2.1]
    · rw [hfold, ihwl, hfields.1]

/-- C4: `find_providers(cid, priority)` records a Want-Have for the CID
in the global wantlist and records a Want-Have in the ledgers of exactly
the known peers whose recorded protocol is `V120` or unknown, never for
a peer recorded at `V100`, `V110` or `Legacy`, and at most
`MAX_PROVIDERS` peers receive the Want-Have per call. -/
theorem find_providers_spec (s : Bitswap) (c : Cid) (pr : Priority)
    (hnd : (s.known_peers.entries.map Prod.fst).Nodup)
    (hcount : (s.known_peers.entries.filter eligibleEntry).length ≤ MAX_PROVIDERS)
    (hcap : s.ledgers.entries.length + s.find_providers_targets.length ≤ s.ledgers.cap) :
    (s.find_providers c pr).wantlist = s.wantlist.want_have_block c pr
    ∧ s.find_providers_targets.length ≤ MAX_PROVIDERS
    ∧ (∀ q, q ∈ s.find_providers_targets ↔
        ∃ v, s.known_peers.lookup q = some v
          ∧ (v = none ∨ v = some ProtocolId.bitswap120))
    ∧ (∀ q, q ∈ s.find_providers_targets →
        (s.find_providers c pr).ledgers.lookup q
          = some (((s.ledgers.lookup q).getD (Ledger.new q)).want_have_block c pr))
    ∧ (∀ q, ¬ q ∈ s.find_providers_targets →
        (s.find_providers c pr).ledgers.lookup q = s.ledgers.lookup q) := by
  have htargets : s.find_providers_targets
      = (s.known_peers.entries.filter eligibleEntry).map Prod.fst := by
    unfold Bitswap.find_providers_targets
    apply List.take_of_length_le
    rw [List.length_map]
    exact hcount
  have htnd : s.find_providers_targets.Nodup := by
    rw [htargets]
    have hsub : List.Sublist ((s.known_peers.entries.filter eligibleEntry).map Prod.fst)
        (s.known_peers.entries.map Prod.fst) :=
      List.Sublist.map Prod.fst (List.filter_sublist s.known_peers.entries)
    exact hnd.sublist hsub
  obtain ⟨hin, hout, _, _, hwl⟩ := wantHaveFold_spec c pr s.find_providers_targets s htnd hcap
  have hfp : s.find_providers c pr
      = { wantHaveFold c pr s.find_providers_targets s with
          wantlist := (wantHaveFold c pr s.find_providers_targets s).wantlist.want_have_block
            c pr } := rfl
  refine ⟨?_, ?_, ?_, ?_, ?_⟩
  · rw [hfp]
    show (wantHaveFold c pr s.find_providers_targets s).wantlist.want_have_block c pr
        = s.wantlist.want_have_block c pr
    rw [hwl]
  · unfold Bitswap.find_providers_targets
    exact List.length_take_le _ _
  · intro q
    rw [htargets]
    constructor
    · intro hq
      rcases List.mem_map.mp hq with ⟨kv, hkvmem, hkvq⟩
      have hmem2 := List.mem_filter.mp hkvmem
      refine ⟨kv.2, ?_, ?_⟩
      · rw [← hkvq]
        exact lookup_eq_some_of_mem_nodup _ hnd _ _ (by simpa using hmem2.1)
      · have := hmem2.2
        unfold eligibleEntry at this
        rcases Bool.or_eq_true_iff.mp this with h | h
        · exact Or.inl (by simpa using h)
        · exact Or.inr (by simpa using h)
    · intro ⟨v, hlook, helig⟩
      have hmem := mem_of_lookup_eq_some _ _ _ hlook
      apply List.mem_map.mpr
      refine ⟨(q, v), List.mem_filter.mpr ⟨hmem, ?_⟩, rfl⟩
      unfold eligibleEntry
      rcases helig with h | h <;> simp [h]
  · intro q hq
    rw [hfp]
    show (wantHaveFold c pr s.find_providers_targets s).ledgers.lookup q = _
    exact hin q hq
  · intro q hq
    rw [hfp]
    show (wantHaveFold c pr s.find_providers_targets s).ledgers.lookup q = _
    exact hout q hq

theorem find_providers_spec_w :
    ((twoLedgerEngine.known_peers.entries.map Prod.fst).Nodup
      ∧ (twoLedgerEngine.known_peers.entries.filter eligibleEntry).length ≤ MAX_PROVIDERS
      ∧ twoLedgerEngine.ledgers.entries.length
          + twoLedgerEngine.find_providers_targets.length ≤ twoLedgerEngine.ledgers.cap)
    ∧ (twoLedgerEngine.find_providers 11 2).ledgers.lookup 1
        = some (((twoLedgerEngine.ledgers.lookup 1).getD (Ledger.new 1)).want_have_block 11 2)
    ∧ (twoLedgerEngine.find_providers 11 2).ledgers.lookup 2
        = twoLedgerEngine.ledgers.lookup 2 := by
  refine ⟨⟨by decide, by decide, by decide⟩, ?_, ?_⟩
  · exact (find_providers_spec twoLedgerEngine 11 2 (by decide) (by decide)
      (by decide)).2.2.2.1 1 (by decide)
  · exact (find_providers_spec twoLedgerEngine 11 2 (by decide) (by decide)
      (by decide)).2.2.2.2 2 (by decide)

/-- C10: lazily creating a ledger for `p` (any `with_ledger` call that
finds none) stores `(p, None)` into `known_peers`, as does a first
established connection to `p` — overwriting any recorded protocol
version — and the recorded version becomes `Some proto` only through
`add_peer` or through the handler's `Connected` report. -/
theorem known_peers_version_tracking (s : Bitswap) (p : PeerId)
    (hcapK : 1 ≤ s.known_peers.cap) :
    (∀ (α : Type) (f : Ledger → Ledger × α), s.ledgers.lookup p = none →
        (s.with_ledger p f).1.known_peers.lookup p = some none)
    ∧ (s.inject_connection_established p 0).known_peers.lookup p = some none
    ∧ (∀ (op : EngineOp) (proto : ProtocolId),
        (stepOp op s).known_peers.lookup p = some (some proto) →
        s.known_peers.lookup p = some (some proto)
        ∨ op = EngineOp.addPeer p (some proto)
        ∨ op = EngineOp.handlerEvent p (HandlerEvent.connected proto)) := by
  refine ⟨?_, ?_, ?_⟩
  · intro α f h
    exact withLedger_creates_known_none s p f h hcapK
  · show ((s.add_peer p none).mutLedger p
        (fun st => { st with conn := ConnState.connected none })).known_peers.lookup p
      = some none
    have hput : (s.add_peer p none).known_peers.lookup p = some none :=
      RawLRU.lookup_put_self _ _ _ hcapK
    cases hl : (s.add_peer p none).ledgers.lookup p with
    | some st =>
      have hres := withLedger_known_of_exists (s.add_peer p none) p
        (fun st => ({ st with conn := ConnState.connected none }, ())) st hl
      unfold Bitswap.mutLedger
      rw [hres]
      exact hput
    | none =>
      exact withLedger_creates_known_none (s.add_peer p none) p
        (fun st => ({ st with conn := ConnState.connected none }, ())) hl hcapK
  · intro op proto h
    cases op with
    | addPeer q v =>
      rcases RawLRU.lookup_put_regress _ _ _ _ _ h with ⟨hpq, hv⟩ | hold
      · refine Or.inr (Or.inl ?_)
        rw [hpq, hv]
      · exact Or.inl hold
    | wantBlock c pr providers =>
      rcases foldl_mutLedger_known_lookup providers _ _ _ _ h with h2 | h2
      · exact Or.inl h2
      · cases h2
    | sendBlock q c d =>
      rcases mutLedger_known_lookup _ _ _ _ _ h with h2 | h2
      · exact Or.inl h2
      · cases h2
    | sendHaveBlock q c =>
      rcases mutLedger_known_lookup _ _ _ _ _ h with h2 | h2
      · exact Or.inl h2
      · cases h2
    | findProviders c pr =>
      rcases foldl_mutLedger_known_lookup s.find_providers_targets _ _ _ _ h with h2 | h2
      · exact Or.inl h2
      · cases h2
    | cancelBlock c => exact Or.inl h
    | cancelWantBlock c => exact Or.inl h
    | dial q =>
      by_cases hcl : s.connection_limit = true
      · simp only [stepOp, Bitswap.dial, hcl, if_true] at h
        exact Or.inl h
      · simp only [stepOp, Bitswap.dial, hcl, if_false] at h
        rcases withLedger_known_lookup _ _ _ _ _ h with h2 | h2
        · exact Or.inl h2
        · cases h2
    | connectionEstablished q other =>
      by_cases ho : other = 0
      · subst ho
        simp only [stepOp, Bitswap.inject_connection_established, if_pos rfl] at h
        rcases mutLedger_known_lookup _ _ _ _ _ h with h2 | h2
        · rcases RawLRU.lookup_put_regress _ _ _ _ _ h2 with ⟨_, hv⟩ | hold
          · cases hv
          · exact Or.inl hold
        · cases h2
      · simp only [stepOp, Bitswap.inject_connection_established, if_neg ho] at h
        exact Or.inl h
    | connectionClosed q remaining =>
      by_cases hr : remaining = 0
      · subst hr
        simp only [stepOp, Bitswap.inject_connection_closed, if_pos rfl] at h
        rcases mutLedger_known_lookup _ _ _ _ _ h with h2 | h2
        · exact Or.inl h2
        · cases h2
      · simp only [stepOp, Bitswap.inject_connection_closed, if_neg hr] at h
        exact Or.inl h
    | dialFailure po err =>
      cases po with
      | none => exact Or.inl h
      | some q =>
        cases err with
        | connectionLimit =>
          rcases mutLedger_known_lookup _ _ _ _ _ h with h2 | h2
          · exact Or.inl h2
          · cases h2
        | dialPeerConditionFalse => exact Or.inl h
        | otherError =>
          exact Or.inl (RawLRU.lookup_remove_regress _ _ _ _ h)
    | handlerEvent q hev =>
      cases hev with
      | connected pr2 =>
        have h2 : (((s.mutLedger q
            (fun st => { st with conn := ConnState.connected (some pr2) })).known_peers.put q
              (some pr2)).lookup p) = some (some proto) := h
        rcases RawLRU.lookup_put_regress _ _ _ _ _ h2 with ⟨hpq, hv⟩ | hold
        · refine Or.inr (Or.inr ?_)
          have hpr : pr2 = proto := by
            have := Option.some.inj hv
            exact this.symm
          rw [hpq, hpr]
        · rcases mutLedger_known_lookup _ _ _ _ _ hold with h3 | h3
          · exact Or.inl h3
          · cases h3
      | message m =>
        have h2 : (s.handleMessage q m).known_peers.lookup p = some (some proto) := h
        rw [handleMessage_known] at h2
        exact Or.inl h2

theorem known_peers_version_tracking_w :
    1 ≤ emptyEngine.known_peers.cap
    ∧ (emptyEngine.inject_connection_established 4 0).known_peers.lookup 4 = some none := by
  refine ⟨by decide, (known_peers_version_tracking emptyEngine 4 (by decide)).2.1⟩
